import Mathlib

/-!
Shallow embedding of the leetshell TUI editor core
(`src/leetshell/tui/editor.py`, `src/leetshell/tui/core.py`,
`src/leetshell/app.py`) and proofs about its specification.

Buffer lines are modelled as `List Char` (Python `str`); the buffer is a
`List (List Char)`.  Python slicing (`line[:c]`, `line[c:]`) is modelled by
`List.take` / `List.drop`, which clamp out-of-range indices exactly as Python
slices do.  Python's `str.isalnum` is modelled by ASCII `Char.isAlphanum`.
Machine integers are `Nat` (cursor fields, which the code keeps non-negative
by explicit guards) and `Int` (scroll fields, whose adjustment arithmetic can
go through negative intermediate values).
-/

/-- Characters for a Lean string literal, used to write Python string
literals from the source. -/
def chars (s : String) : List Char := s.toList

/-- Total line lookup: `lines[i]` with the Python `IndexError` case mapped to
the empty line. -/
def line_at (lines : List (List Char)) (n : Nat) : List Char := lines.getD n []

/-- Python `list.insert(n, x)` (clamps `n` to the list length, as Python does). -/
def insert_at (lines : List (List Char)) (n : Nat) (x : List Char) :
    List (List Char) :=
  lines.take n ++ [x] ++ lines.drop n

/-- Python `list.pop(n)` (the resulting list; `n` in range in all uses). -/
def remove_at (lines : List (List Char)) (n : Nat) : List (List Char) :=
  lines.take n ++ lines.drop (n + 1)

/-- Python `text.split("\n")`: split a character list at every newline. -/
def split_nl : List Char → List (List Char)
  | [] => [[]]
  | c :: cs =>
    match split_nl cs with
    | [] => [[c]]
    | p :: ps => if c = '\n' then [] :: p :: ps else (c :: p) :: ps

/-- Python `"\n".join(lines)`. -/
def join_nl : List (List Char) → List Char
  | [] => []
  | [l] => l
  | l :: ls => l ++ '\n' :: join_nl ls

/-- Keystroke identities handled by `CodeEditor.handle_key`.  `blessed`
key names (`kUP2` is Shift+Up, `kRIT5` is Ctrl+Right, ...) are kept;
`char c` is a plain non-sequence keystroke carrying character `c`. -/
inductive Key where
  | kUP2 | kDN2 | kLFT2 | kRIT2 | kLFT6 | kRIT6 | kUP6 | kDN6 | kHOM2 | kEND2
  | kLFT5 | kRIT5
  | keyUp | keyDown | keyLeft | keyRight | keyHome | keyEnd | keyPgUp | keyPgDown
  | keyBackspace | keyDelete | keyEnter | keyTab
  | char (c : Char)
deriving DecidableEq, Repr

/-- Ctrl+U (undo). -/
def ctrl_u : Char := '\x15'
/-- Ctrl+Z (undo fallback). -/
def ctrl_z : Char := '\x1a'
/-- Ctrl+R (redo). -/
def ctrl_r : Char := '\x12'
/-- Ctrl+Y (redo fallback). -/
def ctrl_y : Char := '\x19'

/-- State of `CodeEditor` (editor.py).  Fields keep the source names with the
leading underscore dropped.  The language/lexer fields and the cached
highlight list are external-collaborator state and are modelled separately
(see `rehighlight`). -/
structure CodeEditor where
  lines : List (List Char)
  cursor_row : Nat
  cursor_col : Nat
  scroll_row : Int
  scroll_col : Int
  sel_anchor : Option (Nat × Nat)
  undo_stack : List (List (List Char) × Nat × Nat)
  redo_stack : List (List (List Char) × Nat × Nat)
  highlight_dirty : Bool
  dirty : Bool
deriving DecidableEq, Repr

namespace CodeEditor

/-- `CodeEditor.__init__`: one empty line, cursor and scroll at origin. -/
def init : CodeEditor :=
  { lines := [[]], cursor_row := 0, cursor_col := 0, scroll_row := 0,
    scroll_col := 0, sel_anchor := none, undo_stack := [], redo_stack := [],
    highlight_dirty := true, dirty := true }

/-- `self._max_undo` (set to 200 in `__init__` and never reassigned). -/
def max_undo : Nat := 200

/-- `set_text`. -/
def set_text (text : List Char) (s : CodeEditor) : CodeEditor :=
  { s with lines := if text = [] then [[]] else split_nl text,
           cursor_row := 0, cursor_col := 0, scroll_row := 0, scroll_col := 0,
           sel_anchor := none, undo_stack := [], redo_stack := [],
           highlight_dirty := true, dirty := true }

/-- `get_text`. -/
def get_text (s : CodeEditor) : List Char := join_nl s.lines

/-- `self._lines[self._cursor_row]`. -/
def current_line (s : CodeEditor) : List Char := line_at s.lines s.cursor_row

/-- Lexicographic `<` on Python `(row, col)` tuples. -/
def pos_lt (a b : Nat × Nat) : Bool :=
  a.1 < b.1 || (a.1 = b.1 && a.2 < b.2)

/-- `_sel_range`: normalized `((start_row, start_col), (end_row, end_col))`
or `none` when there is no anchor or the anchor equals the cursor. -/
def sel_range (s : CodeEditor) : Option ((Nat × Nat) × (Nat × Nat)) :=
  match s.sel_anchor with
  | none => none
  | some anchor =>
    let cursor := (s.cursor_row, s.cursor_col)
    if anchor = cursor then none
    else if pos_lt anchor cursor then some (anchor, cursor)
    else some (cursor, anchor)

/-- `_save_undo`: push a `(lines, row, col)` snapshot, trim the oldest entry
when the stack exceeds `max_undo`, clear the redo stack. -/
def save_undo (s : CodeEditor) : CodeEditor :=
  let st := s.undo_stack ++ [(s.lines, s.cursor_row, s.cursor_col)]
  let st := if max_undo < st.length then st.drop 1 else st
  { s with undo_stack := st, redo_stack := [] }

/-- `_undo`. -/
def undo (s : CodeEditor) : CodeEditor :=
  match s.undo_stack.getLast? with
  | none => s
  | some e =>
    { s with redo_stack := s.redo_stack ++ [(s.lines, s.cursor_row, s.cursor_col)],
             undo_stack := s.undo_stack.dropLast,
             lines := e.1, cursor_row := e.2.1, cursor_col := e.2.2,
             sel_anchor := none, highlight_dirty := true, dirty := true }

/-- `_redo`. -/
def redo (s : CodeEditor) : CodeEditor :=
  match s.redo_stack.getLast? with
  | none => s
  | some e =>
    { s with undo_stack := s.undo_stack ++ [(s.lines, s.cursor_row, s.cursor_col)],
             redo_stack := s.redo_stack.dropLast,
             lines := e.1, cursor_row := e.2.1, cursor_col := e.2.2,
             sel_anchor := none, highlight_dirty := true, dirty := true }

/-- `_delete_selection`: returns whether a selection existed, and the new
state. -/
def delete_selection (s : CodeEditor) : Bool × CodeEditor :=
  match sel_range s with
  | none => (false, s)
  | some ((sr, sc), (er, ec)) =>
    let s := save_undo s
    let lines :=
      if sr = er then
        s.lines.set sr ((line_at s.lines sr).take sc ++ (line_at s.lines sr).drop ec)
      else
        let first := (line_at s.lines sr).take sc
        let last := (line_at s.lines er).drop ec
        let l1 := s.lines.set sr (first ++ last)
        l1.take (sr + 1) ++ l1.drop (er + 1)
    (true, { s with lines := lines, cursor_row := sr, cursor_col := sc,
                    sel_anchor := none, highlight_dirty := true, dirty := true })

/-- `_insert_char` (single character; `len(ch) = 1`). -/
def insert_char (ch : Char) (s : CodeEditor) : CodeEditor :=
  let line := current_line s
  { s with lines := s.lines.set s.cursor_row
             (line.take s.cursor_col ++ [ch] ++ line.drop s.cursor_col),
           cursor_col := s.cursor_col + 1,
           highlight_dirty := true, dirty := true }

/-- `_insert_text`. -/
def insert_text (text : List Char) (s : CodeEditor) : CodeEditor :=
  let line := current_line s
  { s with lines := s.lines.set s.cursor_row
             (line.take s.cursor_col ++ text ++ line.drop s.cursor_col),
           cursor_col := s.cursor_col + text.length,
           highlight_dirty := true, dirty := true }

/-- `_backspace`. -/
def backspace (s : CodeEditor) : CodeEditor :=
  if 0 < s.cursor_col then
    let line := current_line s
    { s with lines := s.lines.set s.cursor_row
               (line.take (s.cursor_col - 1) ++ line.drop s.cursor_col),
             cursor_col := s.cursor_col - 1,
             highlight_dirty := true, dirty := true }
  else if 0 < s.cursor_row then
    let prev := line_at s.lines (s.cursor_row - 1)
    let merged := prev ++ current_line s
    { s with lines := remove_at (s.lines.set (s.cursor_row - 1) merged) s.cursor_row,
             cursor_row := s.cursor_row - 1, cursor_col := prev.length,
             highlight_dirty := true, dirty := true }
  else s

/-- `_delete` (forward delete). -/
def delete (s : CodeEditor) : CodeEditor :=
  let line := current_line s
  if s.cursor_col < line.length then
    { s with lines := s.lines.set s.cursor_row
               (line.take s.cursor_col ++ line.drop (s.cursor_col + 1)),
             highlight_dirty := true, dirty := true }
  else if s.cursor_row < s.lines.length - 1 then
    let merged := line ++ line_at s.lines (s.cursor_row + 1)
    { s with lines := remove_at (s.lines.set s.cursor_row merged) (s.cursor_row + 1),
             highlight_dirty := true, dirty := true }
  else s

/-- `_enter`: split the line at the cursor, copying leading whitespace of the
current line as indentation of the new line. -/
def enter (s : CodeEditor) : CodeEditor :=
  let line := current_line s
  let indent := line.takeWhile (fun c => c = ' ' || c = '\t')
  let before := line.take s.cursor_col
  let after := line.drop s.cursor_col
  { s with lines := insert_at (s.lines.set s.cursor_row before)
             (s.cursor_row + 1) (indent ++ after),
           cursor_row := s.cursor_row + 1, cursor_col := indent.length,
           highlight_dirty := true, dirty := true }

/-- `_move_up`. -/
def move_up (s : CodeEditor) : CodeEditor :=
  if 0 < s.cursor_row then
    let row := s.cursor_row - 1
    { s with cursor_row := row,
             cursor_col := min s.cursor_col (line_at s.lines row).length,
             dirty := true }
  else s

/-- `_move_down`. -/
def move_down (s : CodeEditor) : CodeEditor :=
  if s.cursor_row < s.lines.length - 1 then
    let row := s.cursor_row + 1
    { s with cursor_row := row,
             cursor_col := min s.cursor_col (line_at s.lines row).length,
             dirty := true }
  else s

/-- `_move_left`. -/
def move_left (s : CodeEditor) : CodeEditor :=
  if 0 < s.cursor_col then
    { s with cursor_col := s.cursor_col - 1, dirty := true }
  else if 0 < s.cursor_row then
    let row := s.cursor_row - 1
    { s with cursor_row := row, cursor_col := (line_at s.lines row).length,
             dirty := true }
  else s

/-- `_move_right`. -/
def move_right (s : CodeEditor) : CodeEditor :=
  let line := current_line s
  if s.cursor_col < line.length then
    { s with cursor_col := s.cursor_col + 1, dirty := true }
  else if s.cursor_row < s.lines.length - 1 then
    { s with cursor_row := s.cursor_row + 1, cursor_col := 0, dirty := true }
  else s

/-- Word characters: `line[col].isalnum() or line[col] == "_"`. -/
def word_char (c : Char) : Bool := c.isAlphanum || c = '_'

/-- `while col < len(line) and f(line[col]): col += 1`. -/
def skip_while_right (f : Char → Bool) (line : List Char) (col : Nat) : Nat :=
  col + ((line.drop col).takeWhile f).length

/-- `while col > 0 and not word(line[col]): col -= 1`. -/
def skip_nonword_left (line : List Char) : Nat → Nat
  | 0 => 0
  | col + 1 =>
    if word_char (line.getD (col + 1) ' ') then col + 1
    else skip_nonword_left line col

/-- `while col > 0 and word(line[col-1]): col -= 1`. -/
def skip_word_left (line : List Char) : Nat → Nat
  | 0 => 0
  | col + 1 =>
    if word_char (line.getD col ' ') then skip_word_left line col
    else col + 1

/-- `_move_word_left`. -/
def move_word_left (s : CodeEditor) : CodeEditor :=
  if 0 < s.cursor_col then
    let line := current_line s
    let col := skip_nonword_left line (s.cursor_col - 1)
    let col := skip_word_left line col
    { s with cursor_col := col, dirty := true }
  else if 0 < s.cursor_row then
    let row := s.cursor_row - 1
    { s with cursor_row := row, cursor_col := (line_at s.lines row).length,
             dirty := true }
  else { s with dirty := true }

/-- `_move_word_right`. -/
def move_word_right (s : CodeEditor) : CodeEditor :=
  let line := current_line s
  if s.cursor_col < line.length then
    let col := skip_while_right word_char line s.cursor_col
    let col := skip_while_right (fun c => !word_char c) line col
    { s with cursor_col := col, dirty := true }
  else if s.cursor_row < s.lines.length - 1 then
    { s with cursor_row := s.cursor_row + 1, cursor_col := 0, dirty := true }
  else { s with dirty := true }

/-- `_page_up`. -/
def page_up (s : CodeEditor) : CodeEditor :=
  let row := s.cursor_row - 20
  { s with cursor_row := row,
           cursor_col := min s.cursor_col (line_at s.lines row).length,
           dirty := true }

/-- `_page_down`. -/
def page_down (s : CodeEditor) : CodeEditor :=
  let row := min (s.lines.length - 1) (s.cursor_row + 20)
  { s with cursor_row := row,
           cursor_col := min s.cursor_col (line_at s.lines row).length,
           dirty := true }

/-- Set the selection anchor to the cursor if it is not already set
(the first two lines of the Shift+movement branch of `handle_key`). -/
def ensure_anchor (s : CodeEditor) : CodeEditor :=
  match s.sel_anchor with
  | none => { s with sel_anchor := some (s.cursor_row, s.cursor_col) }
  | some _ => s

/-- `handle_key`: dispatch one keystroke; returns whether it was consumed
and the new state. -/
def handle_key (key : Key) (s : CodeEditor) : Bool × CodeEditor :=
  match key with
  | .kUP2 => (true, move_up (ensure_anchor s))
  | .kUP6 => (true, move_up (ensure_anchor s))
  | .kDN2 => (true, move_down (ensure_anchor s))
  | .kDN6 => (true, move_down (ensure_anchor s))
  | .kLFT2 => (true, move_left (ensure_anchor s))
  | .kRIT2 => (true, move_right (ensure_anchor s))
  | .kLFT6 => (true, move_word_left (ensure_anchor s))
  | .kRIT6 => (true, move_word_right (ensure_anchor s))
  | .kHOM2 =>
    let s := ensure_anchor s
    (true, { s with cursor_col := 0, dirty := true })
  | .kEND2 =>
    let s := ensure_anchor s
    (true, { s with cursor_col := (current_line s).length, dirty := true })
  | .kLFT5 => (true, move_word_left { s with sel_anchor := none })
  | .kRIT5 => (true, move_word_right { s with sel_anchor := none })
  | .keyUp => (true, move_up { s with sel_anchor := none })
  | .keyDown => (true, move_down { s with sel_anchor := none })
  | .keyLeft =>
    match s.sel_anchor with
    | some _ =>
      let s :=
        match sel_range s with
        | some (st, _) => { s with cursor_row := st.1, cursor_col := st.2 }
        | none => s
      (true, { s with sel_anchor := none, dirty := true })
    | none => (true, move_left s)
  | .keyRight =>
    match s.sel_anchor with
    | some _ =>
      let s :=
        match sel_range s with
        | some (_, en) => { s with cursor_row := en.1, cursor_col := en.2 }
        | none => s
      (true, { s with sel_anchor := none, dirty := true })
    | none => (true, move_right s)
  | .keyHome => (true, { s with sel_anchor := none, cursor_col := 0, dirty := true })
  | .keyEnd =>
    (true, { s with sel_anchor := none, cursor_col := (current_line s).length,
                    dirty := true })
  | .keyPgUp => (true, page_up { s with sel_anchor := none })
  | .keyPgDown => (true, page_down { s with sel_anchor := none })
  | .keyBackspace =>
    let r := delete_selection s
    if r.1 then (true, r.2) else (true, backspace (save_undo s))
  | .keyDelete =>
    let r := delete_selection s
    if r.1 then (true, r.2) else (true, delete (save_undo s))
  | .keyEnter => (true, enter (delete_selection (save_undo s)).2)
  | .keyTab => (true, insert_text (chars "    ") (delete_selection (save_undo s)).2)
  | .char c =>
    if c = ctrl_u ∨ c = ctrl_z then (true, undo s)
    else if c = ctrl_r ∨ c = ctrl_y then (true, redo s)
    else if c = '\t' then
      (true, insert_text (chars "    ") (delete_selection (save_undo s)).2)
    else (true, insert_char c (delete_selection (save_undo s)).2)

/-- The state after `handle_key`. -/
def step (key : Key) (s : CodeEditor) : CodeEditor := (handle_key key s).2

/-- Python `len(str(n))` for a natural number (decimal digit count). -/
def num_digits_aux : Nat → Nat → Nat
  | 0, _ => 1
  | fuel + 1, n => if n < 10 then 1 else num_digits_aux fuel (n / 10) + 1

/-- Python `len(str(n))` for a natural number. -/
def num_digits (n : Nat) : Nat := num_digits_aux n n

/-- `self._gutter_width = max(4, len(str(len(self._lines))) + 2)` (render). -/
def gutter_width_of (lines : List (List Char)) : Nat :=
  max 4 (num_digits lines.length + 2)

/-- The state mutation performed by `render(x, y, width, height)`: recompute
the gutter width and adjust the scroll offsets so the cursor is visible
(editor.py lines 264-276), then clear the render-dirty flag.  The drawing
itself only writes to the terminal. -/
def render_scroll (s : CodeEditor) (width height : Int) : CodeEditor :=
  let gw : Int := (gutter_width_of s.lines : Int)
  let code_width := width - gw
  let sr :=
    if (s.cursor_row : Int) < s.scroll_row then (s.cursor_row : Int)
    else if s.scroll_row + height ≤ (s.cursor_row : Int) then
      (s.cursor_row : Int) - height + 1
    else s.scroll_row
  let sc :=
    if (s.cursor_col : Int) < s.scroll_col then (s.cursor_col : Int)
    else if s.scroll_col + code_width ≤ (s.cursor_col : Int) then
      (s.cursor_col : Int) - code_width + 1
    else s.scroll_col
  { s with scroll_row := sr, scroll_col := sc, dirty := false }

end CodeEditor

/-- One editor operation: a keystroke handled by `handle_key`, or a
`set_text` reset. -/
inductive Op where
  | key (k : Key)
  | set (t : List Char)

/-- Apply one operation. -/
def step_op (s : CodeEditor) (o : Op) : CodeEditor :=
  match o with
  | .key k => CodeEditor.step k s
  | .set t => CodeEditor.set_text t s

/-- Run a sequence of operations. -/
def run (ops : List Op) (s : CodeEditor) : CodeEditor := ops.foldl step_op s

section Highlight

/-- A lexer token after color resolution (`_get_color`): a display color and
a text fragment.  The lexer itself is an external collaborator. -/
abbrev HlToken := String × List Char

/-- A cached line: a list of `(color, fragment)` pairs. -/
abbrev HlLine := List HlToken

/-- `if part: current_line.append((color, part))`. -/
def add_first (cur : HlLine) (color : String) (p : List Char) : HlLine :=
  if p.isEmpty then cur else cur ++ [(color, p)]

/-- Process the parts of a token after the first: each closes the current
line and starts a new one. -/
def add_rest (color : String) : List (List Char) → List HlLine × HlLine → List HlLine × HlLine
  | [], st => st
  | p :: ps, (hl, cur) => add_rest color ps (hl ++ [cur], add_first [] color p)

/-- Process one `(color, value)` token of the stream: split the value at
newlines and distribute the parts over lines (`_rehighlight` inner loop). -/
def split_token (st : List HlLine × HlLine) (tok : HlToken) : List HlLine × HlLine :=
  match split_nl tok.2 with
  | [] => st
  | p :: ps => add_rest tok.1 ps (st.1, add_first st.2 tok.1 p)

/-- `_rehighlight`: no-op when not dirty; otherwise split the token stream
produced by the external lexer on the full buffer text into per-line lists,
append the trailing line, and pad with empty lists up to the buffer's line
count.  Returns the new `(highlight_dirty, highlighted)` pair. -/
def rehighlight (lines : List (List Char)) (tokens : List HlToken)
    (highlight_dirty : Bool) (highlighted : List HlLine) : Bool × List HlLine :=
  if !highlight_dirty then (highlight_dirty, highlighted)
  else
    let st := tokens.foldl split_token ([], [])
    let hl := st.1 ++ [st.2]
    (false, hl ++ List.replicate (lines.length - hl.length) [])

end Highlight

section Screens

/-- A TUI screen, reduced to the state C9 is about: an identity and the
`dirty` render-invalidation flag (`Screen.__init__`, core.py). -/
structure TuiScreen where
  id : Nat
  dirty : Bool
deriving DecidableEq, Repr

/-- `Screen.invalidate`. -/
def invalidate (sc : TuiScreen) : TuiScreen := { sc with dirty := true }

/-- Completion of the `run_async` wrapper (core.py lines 50-56): when the
coroutine finishes, `finally: self.invalidate()` runs on the owning screen.
The wrapper closes only over the screen object; it receives no information
about the screen stack. -/
def run_async_complete (sc : TuiScreen) : TuiScreen := invalidate sc

/-- The stack change performed by `LeetCodeApp.pop_screen` (app.py): the top
(last element) is removed.  Lifecycle hooks are external to this model. -/
def pop_screen (stack : List TuiScreen) : List TuiScreen := stack.dropLast

end Screens

open CodeEditor

/-! ### Concrete states used by several scenarios -/

/-- Single-line buffer `"abcdef"` with selection anchor `(0,2)` and cursor
`(0,5)` (an active selection over columns 2..4). -/
def ex_sel : CodeEditor :=
  { init with lines := [chars "abcdef"], sel_anchor := some (0, 2),
              cursor_row := 0, cursor_col := 5 }

/-- Buffer `["two", "sum"]` with the cursor at `(0,0)`. -/
def ex_two_sum : CodeEditor :=
  { init with lines := [chars "two", chars "sum"] }

/-- A key sequence that leaves a stale selection anchor behind: move to the
end of `"ab"`, Shift+Left then Shift+Right (anchor `(0,2)` equal to the
cursor), Backspace (anchor survives because the selection is empty, the line
shrinks to `"a"`), Shift+Down (a phantom selection `((0,2),(1,1))` is now
active), Backspace (deletes the phantom selection). -/
def stale_anchor_ops : List Op :=
  [Op.key Key.keyRight, Op.key Key.keyRight, Op.key Key.kLFT2, Op.key Key.kRIT2,
   Op.key Key.keyBackspace, Op.key Key.kDN2, Op.key Key.keyBackspace]

/-- Keys whose `handle_key` branch performs a single edit: Backspace,
Delete, Enter, Tab, and plain characters other than the Ctrl+U/Z/R/Y
undo/redo characters. -/
def is_edit_key : Key → Bool
  | .keyBackspace => true
  | .keyDelete => true
  | .keyEnter => true
  | .keyTab => true
  | .char c => !(c == ctrl_u || c == ctrl_z || c == ctrl_r || c == ctrl_y)
  | _ => false

/-- Pure cursor-movement keys: plain, Shift- and Ctrl-modified movement. -/
def is_move_key : Key → Bool
  | .kUP2 | .kDN2 | .kLFT2 | .kRIT2 | .kLFT6 | .kRIT6 | .kUP6 | .kDN6
  | .kHOM2 | .kEND2 | .kLFT5 | .kRIT5 | .keyUp | .keyDown | .keyLeft
  | .keyRight | .keyHome | .keyEnd | .keyPgUp | .keyPgDown => true
  | _ => false

/-- Agreement on everything a pure cursor movement may not touch: buffer
lines, both history stacks, the highlight-dirty flag, and the scroll
offsets. -/
def move_frame (a b : CodeEditor) : Prop :=
  a.lines = b.lines ∧ a.undo_stack = b.undo_stack ∧ a.redo_stack = b.redo_stack ∧
  a.highlight_dirty = b.highlight_dirty ∧ a.scroll_row = b.scroll_row ∧
  a.scroll_col = b.scroll_col

/-- C2: the buffer invariant `col ≤ len(lines[row])` does NOT hold after
every key sequence: starting from `set_text "ab\nx"`, the stale-anchor
sequence ends with buffer `["a"]` and cursor `(0,2)`, whose column 2 exceeds
the line length 1. -/
theorem buffer_invariant_violation :
    (run stale_anchor_ops (set_text (chars "ab\nx") init)).lines = [chars "a"] ∧
    (run stale_anchor_ops (set_text (chars "ab\nx") init)).cursor_row = 0 ∧
    (run stale_anchor_ops (set_text (chars "ab\nx") init)).cursor_col = 2 ∧
    ¬ ((run stale_anchor_ops (set_text (chars "ab\nx") init)).cursor_col ≤
        (line_at (run stale_anchor_ops (set_text (chars "ab\nx") init)).lines
          (run stale_anchor_ops (set_text (chars "ab\nx") init)).cursor_row).length) := by
  decide

/-- C4 counterexample: for viewport width 1 and height 1 (both ≥ 1) the
claimed invariant `scroll_col ≤ cursor_col` fails after a render: on the
initial editor the gutter width is 4, the code width is negative, and the
scroll adjustment sets `scroll_col` to 4 while the cursor column is 0. -/
theorem viewport_claim_counterexample :
    (render_scroll init 1 1).scroll_col = 4 ∧
    (init.cursor_col : Int) = 0 ∧
    ¬ ((render_scroll init 1 1).scroll_col ≤ (init.cursor_col : Int)) := by
  decide

/-- C5 counterexample: on buffer `["two", "sum"]` with cursor `(0,0)`, the
second application of `move_word_right` only crosses the line boundary to
`(1,0)`; it does not continue to the end of `"sum"`, so the cursor is not at
`(1,3)` as claimed. -/
theorem move_word_right_counterexample :
    (move_word_right (move_word_right ex_two_sum)).cursor_row = 1 ∧
    (move_word_right (move_word_right ex_two_sum)).cursor_col = 0 ∧
    ¬ ((move_word_right (move_word_right ex_two_sum)).cursor_col = 3) := by
  decide

/-- C5 (amended): on buffer `["two", "sum"]` with cursor `(0,0)`, one
application of `move_word_right` moves to `(0,3)`; a second application only
crosses into the next line, to `(1,0)`; a third application skips to the end
of `"sum"`, `(1,3)`. -/
theorem move_word_right_scenario :
    (move_word_right ex_two_sum).cursor_row = 0 ∧
    (move_word_right ex_two_sum).cursor_col = 3 ∧
    (move_word_right (move_word_right ex_two_sum)).cursor_row = 1 ∧
    (move_word_right (move_word_right ex_two_sum)).cursor_col = 0 ∧
    (move_word_right (move_word_right (move_word_right ex_two_sum))).cursor_row = 1 ∧
    (move_word_right (move_word_right (move_word_right ex_two_sum))).cursor_col = 3 := by
  decide

/-- C6 counterexample: with the active selection `[(0,2),(0,5))` on
`"abcdef"`, Backspace deletes only the selection: the result is `"abf"` with
cursor `(0,2)`, not `"af"` as the claim's further-character-removal would
produce. -/
theorem backspace_selection_counterexample :
    (step Key.keyBackspace ex_sel).lines = [chars "abf"] ∧
    (step Key.keyBackspace ex_sel).cursor_row = 0 ∧
    (step Key.keyBackspace ex_sel).cursor_col = 2 ∧
    ¬ ((step Key.keyBackspace ex_sel).lines = [chars "af"]) := by
  decide

/-- C9 counterexample: the completion of a `run_async` task is not a no-op
for a screen that has been popped: with screen 1 popped off the stack, the
wrapper's `finally` still invalidates screen 1, changing its state. -/
theorem stale_completion_counterexample :
    (⟨1, false⟩ : TuiScreen) ∉ pop_screen [⟨0, true⟩, ⟨1, false⟩] ∧
    run_async_complete ⟨1, false⟩ ≠ (⟨1, false⟩ : TuiScreen) := by
  decide

/-! ### C1: undo/redo round trip -/

theorem save_undo_lines (s : CodeEditor) : (save_undo s).lines = s.lines := rfl

theorem save_undo_cursor_row (s : CodeEditor) :
    (save_undo s).cursor_row = s.cursor_row := rfl

theorem save_undo_cursor_col (s : CodeEditor) :
    (save_undo s).cursor_col = s.cursor_col := rfl

theorem save_undo_shape (s : CodeEditor) :
    ∃ st, (save_undo s).undo_stack =
      st ++ [(s.lines, s.cursor_row, s.cursor_col)] := by
  show ∃ st, (if max_undo < (s.undo_stack ++ [(s.lines, s.cursor_row, s.cursor_col)]).length
      then (s.undo_stack ++ [(s.lines, s.cursor_row, s.cursor_col)]).drop 1
      else s.undo_stack ++ [(s.lines, s.cursor_row, s.cursor_col)]) =
      st ++ [(s.lines, s.cursor_row, s.cursor_col)]
  split
  · rename_i hlen
    cases hnil : s.undo_stack with
    | nil => rw [hnil] at hlen; simp [max_undo] at hlen
    | cons a t =>
      refine ⟨t, ?_⟩
      simp
  · exact ⟨s.undo_stack, rfl⟩

theorem backspace_undo_stack (s : CodeEditor) :
    (backspace s).undo_stack = s.undo_stack := by
  unfold backspace
  dsimp only
  split
  · rfl
  · split <;> rfl

theorem delete_undo_stack (s : CodeEditor) :
    (delete s).undo_stack = s.undo_stack := by
  unfold delete
  dsimp only
  split
  · rfl
  · split <;> rfl

theorem enter_undo_stack (s : CodeEditor) :
    (enter s).undo_stack = s.undo_stack := rfl

theorem insert_char_undo_stack (ch : Char) (s : CodeEditor) :
    (insert_char ch s).undo_stack = s.undo_stack := rfl

theorem insert_text_undo_stack (t : List Char) (s : CodeEditor) :
    (insert_text t s).undo_stack = s.undo_stack := rfl

theorem delete_selection_none (s : CodeEditor) (h : sel_range s = none) :
    delete_selection s = (false, s) := by
  unfold delete_selection
  rw [h]

theorem delete_selection_some_stack (s : CodeEditor)
    (r : (Nat × Nat) × (Nat × Nat)) (h : sel_range s = some r) :
    (delete_selection s).1 = true ∧
    (delete_selection s).2.undo_stack = (save_undo s).undo_stack := by
  unfold delete_selection
  rw [h]
  obtain ⟨⟨sr, sc⟩, er, ec⟩ := r
  exact ⟨rfl, rfl⟩

theorem save_then_sel_stack (s : CodeEditor) :
    ∃ st, (delete_selection (save_undo s)).2.undo_stack =
      st ++ [(s.lines, s.cursor_row, s.cursor_col)] := by
  cases h : sel_range (save_undo s) with
  | none =>
    rw [delete_selection_none _ h]
    exact save_undo_shape s
  | some r =>
    obtain ⟨-, hst⟩ := delete_selection_some_stack _ r h
    rw [hst]
    exact save_undo_shape (save_undo s)

theorem edit_stack_shape (s : CodeEditor) (k : Key) (hk : is_edit_key k = true) :
    ∃ st r c, (step k s).undo_stack = st ++ [(s.lines, r, c)] := by
  cases k with
  | keyBackspace =>
    show ∃ st r c,
      (if (delete_selection s).1 then (true, (delete_selection s).2)
       else (true, backspace (save_undo s))).2.undo_stack = st ++ [(s.lines, r, c)]
    cases h : sel_range s with
    | none =>
      rw [delete_selection_none _ h]
      obtain ⟨st, hst⟩ := save_undo_shape s
      exact ⟨st, s.cursor_row, s.cursor_col, by simpa [backspace_undo_stack] using hst⟩
    | some r =>
      obtain ⟨h1, hst⟩ := delete_selection_some_stack _ r h
      rw [h1]
      obtain ⟨st, hs⟩ := save_undo_shape s
      exact ⟨st, s.cursor_row, s.cursor_col, by simpa [hst] using hs⟩
  | keyDelete =>
    show ∃ st r c,
      (if (delete_selection s).1 then (true, (delete_selection s).2)
       else (true, delete (save_undo s))).2.undo_stack = st ++ [(s.lines, r, c)]
    cases h : sel_range s with
    | none =>
      rw [delete_selection_none _ h]
      obtain ⟨st, hst⟩ := save_undo_shape s
      exact ⟨st, s.cursor_row, s.cursor_col, by simpa [delete_undo_stack] using hst⟩
    | some r =>
      obtain ⟨h1, hst⟩ := delete_selection_some_stack _ r h
      rw [h1]
      obtain ⟨st, hs⟩ := save_undo_shape s
      exact ⟨st, s.cursor_row, s.cursor_col, by simpa [hst] using hs⟩
  | keyEnter =>
    obtain ⟨st, hst⟩ := save_then_sel_stack s
    exact ⟨st, s.cursor_row, s.cursor_col,
      by simpa [step, handle_key, enter_undo_stack] using hst⟩
  | keyTab =>
    obtain ⟨st, hst⟩ := save_then_sel_stack s
    exact ⟨st, s.cursor_row, s.cursor_col,
      by simpa [step, handle_key, insert_text_undo_stack] using hst⟩
  | char c =>
    have h1 : ¬ (c = ctrl_u ∨ c = ctrl_z) := by
      simp only [is_edit_key, Bool.not_eq_true', Bool.or_eq_false_iff, beq_eq_false_iff_ne,
        ne_eq] at hk
      tauto
    have h2 : ¬ (c = ctrl_r ∨ c = ctrl_y) := by
      simp only [is_edit_key, Bool.not_eq_true', Bool.or_eq_false_iff, beq_eq_false_iff_ne,
        ne_eq] at hk
      tauto
    obtain ⟨st, hst⟩ := save_then_sel_stack s
    refine ⟨st, s.cursor_row, s.cursor_col, ?_⟩
    show (if c = ctrl_u ∨ c = ctrl_z then (true, undo s)
      else if c = ctrl_r ∨ c = ctrl_y then (true, redo s)
      else if c = '\t' then
        (true, insert_text (chars "    ") (delete_selection (save_undo s)).2)
      else (true, insert_char c (delete_selection (save_undo s)).2)).2.undo_stack =
      st ++ [(s.lines, s.cursor_row, s.cursor_col)]
    rw [if_neg h1, if_neg h2]
    by_cases h3 : c = '\t'
    · rw [if_pos h3]
      simpa [insert_text_undo_stack] using hst
    · rw [if_neg h3]
      simpa [insert_char_undo_stack] using hst
  | _ => simp [is_edit_key] at hk

theorem step_ctrl_u (s : CodeEditor) : step (Key.char ctrl_u) s = undo s := by
  show (if ctrl_u = ctrl_u ∨ ctrl_u = ctrl_z then (true, undo s)
    else if ctrl_u = ctrl_r ∨ ctrl_u = ctrl_y then (true, redo s)
    else if ctrl_u = '\t' then
      (true, insert_text (chars "    ") (delete_selection (save_undo s)).2)
    else (true, insert_char ctrl_u (delete_selection (save_undo s)).2)).2 = undo s
  rw [if_pos (Or.inl rfl)]

theorem step_ctrl_r (s : CodeEditor) : step (Key.char ctrl_r) s = redo s := by
  show (if ctrl_r = ctrl_u ∨ ctrl_r = ctrl_z then (true, undo s)
    else if ctrl_r = ctrl_r ∨ ctrl_r = ctrl_y then (true, redo s)
    else if ctrl_r = '\t' then
      (true, insert_text (chars "    ") (delete_selection (save_undo s)).2)
    else (true, insert_char ctrl_r (delete_selection (save_undo s)).2)).2 = redo s
  rw [if_neg (by decide), if_pos (Or.inl rfl)]

theorem undo_of_concat (s : CodeEditor) (st : List (List (List Char) × Nat × Nat))
    (L : List (List Char)) (r c : Nat) (h : s.undo_stack = st ++ [(L, r, c)]) :
    (undo s).lines = L ∧
    (undo s).redo_stack = s.redo_stack ++ [(s.lines, s.cursor_row, s.cursor_col)] := by
  unfold undo
  rw [h, List.getLast?_concat]
  exact ⟨rfl, rfl⟩

theorem redo_of_concat (s : CodeEditor) (st : List (List (List Char) × Nat × Nat))
    (L : List (List Char)) (r c : Nat) (h : s.redo_stack = st ++ [(L, r, c)]) :
    (redo s).lines = L := by
  unfold redo
  rw [h, List.getLast?_concat]

/-- C1: after any single editing operation (character insertion, Backspace,
Delete, Enter, Tab — each of which deletes an active selection first), undo
restores exactly the pre-edit text, and redo right after that undo restores
the post-edit text. -/
theorem undo_redo_round_trip (s : CodeEditor) (k : Key) (hk : is_edit_key k = true) :
    get_text (step (Key.char ctrl_u) (step k s)) = get_text s ∧
    get_text (step (Key.char ctrl_r) (step (Key.char ctrl_u) (step k s))) =
      get_text (step k s) := by
  obtain ⟨st, r, c, h⟩ := edit_stack_shape s k hk
  obtain ⟨hu1, hu2⟩ := undo_of_concat (step k s) st s.lines r c h
  have hr := redo_of_concat (step (Key.char ctrl_u) (step k s))
    ((step k s).redo_stack) (step k s).lines (step k s).cursor_row
    (step k s).cursor_col (by rw [step_ctrl_u]; exact hu2)
  constructor
  · rw [step_ctrl_u]
    show join_nl (undo (step k s)).lines = join_nl s.lines
    rw [hu1]
  · rw [step_ctrl_r]
    show join_nl (redo (step (Key.char ctrl_u) (step k s))).lines =
      join_nl (step k s).lines
    rw [hr]

/-- Witness for C1 at a concrete input: inserting `'a'` into the fresh
editor, undoing, and redoing. -/
theorem undo_redo_round_trip_witness :
    get_text (step (Key.char ctrl_u) (step (Key.char 'a') init)) = get_text init ∧
    get_text (step (Key.char ctrl_r) (step (Key.char ctrl_u) (step (Key.char 'a') init))) =
      get_text (step (Key.char 'a') init) :=
  undo_redo_round_trip init (Key.char 'a') (by decide)

/-! ### C10: pure movements leave the buffer, the history and the
highlight state unchanged -/

theorem move_frame_trans {a b c : CodeEditor} (h1 : move_frame a b)
    (h2 : move_frame b c) : move_frame a c := by
  obtain ⟨x1, x2, x3, x4, x5, x6⟩ := h1
  obtain ⟨y1, y2, y3, y4, y5, y6⟩ := h2
  exact ⟨x1.trans y1, x2.trans y2, x3.trans y3, x4.trans y4, x5.trans y5, x6.trans y6⟩

theorem move_frame_ensure_anchor (s : CodeEditor) : move_frame (ensure_anchor s) s := by
  unfold ensure_anchor
  split <;> exact ⟨rfl, rfl, rfl, rfl, rfl, rfl⟩

theorem move_frame_move_up (s : CodeEditor) : move_frame (move_up s) s := by
  unfold move_up
  dsimp only
  split <;> exact ⟨rfl, rfl, rfl, rfl, rfl, rfl⟩

theorem move_frame_move_down (s : CodeEditor) : move_frame (move_down s) s := by
  unfold move_down
  dsimp only
  split <;> exact ⟨rfl, rfl, rfl, rfl, rfl, rfl⟩

theorem move_frame_move_left (s : CodeEditor) : move_frame (move_left s) s := by
  unfold move_left
  dsimp only
  split
  · exact ⟨rfl, rfl, rfl, rfl, rfl, rfl⟩
  · split <;> exact ⟨rfl, rfl, rfl, rfl, rfl, rfl⟩

theorem move_frame_move_right (s : CodeEditor) : move_frame (move_right s) s := by
  unfold move_right
  dsimp only
  split
  · exact ⟨rfl, rfl, rfl, rfl, rfl, rfl⟩
  · split <;> exact ⟨rfl, rfl, rfl, rfl, rfl, rfl⟩

theorem move_frame_move_word_left (s : CodeEditor) :
    move_frame (move_word_left s) s := by
  unfold move_word_left
  dsimp only
  split
  · exact ⟨rfl, rfl, rfl, rfl, rfl, rfl⟩
  · split <;> exact ⟨rfl, rfl, rfl, rfl, rfl, rfl⟩

theorem move_frame_move_word_right (s : CodeEditor) :
    move_frame (move_word_right s) s := by
  unfold move_word_right
  dsimp only
  split
  · exact ⟨rfl, rfl, rfl, rfl, rfl, rfl⟩
  · split <;> exact ⟨rfl, rfl, rfl, rfl, rfl, rfl⟩

theorem move_frame_page_up (s : CodeEditor) : move_frame (page_up s) s :=
  ⟨rfl, rfl, rfl, rfl, rfl, rfl⟩

theorem move_frame_page_down (s : CodeEditor) : move_frame (page_down s) s :=
  ⟨rfl, rfl, rfl, rfl, rfl, rfl⟩

theorem move_frame_clear_anchor (s : CodeEditor) :
    move_frame { s with sel_anchor := none } s :=
  ⟨rfl, rfl, rfl, rfl, rfl, rfl⟩

theorem move_frame_step (s : CodeEditor) (k : Key) (hk : is_move_key k = true) :
    move_frame (step k s) s := by
  cases k with
  | kUP2 => exact move_frame_trans (move_frame_move_up _) (move_frame_ensure_anchor s)
  | kUP6 => exact move_frame_trans (move_frame_move_up _) (move_frame_ensure_anchor s)
  | kDN2 => exact move_frame_trans (move_frame_move_down _) (move_frame_ensure_anchor s)
  | kDN6 => exact move_frame_trans (move_frame_move_down _) (move_frame_ensure_anchor s)
  | kLFT2 => exact move_frame_trans (move_frame_move_left _) (move_frame_ensure_anchor s)
  | kRIT2 => exact move_frame_trans (move_frame_move_right _) (move_frame_ensure_anchor s)
  | kLFT6 =>
    exact move_frame_trans (move_frame_move_word_left _) (move_frame_ensure_anchor s)
  | kRIT6 =>
    exact move_frame_trans (move_frame_move_word_right _) (move_frame_ensure_anchor s)
  | kHOM2 =>
    exact move_frame_trans (b := ensure_anchor s)
      ⟨rfl, rfl, rfl, rfl, rfl, rfl⟩ (move_frame_ensure_anchor s)
  | kEND2 =>
    exact move_frame_trans (b := ensure_anchor s)
      ⟨rfl, rfl, rfl, rfl, rfl, rfl⟩ (move_frame_ensure_anchor s)
  | kLFT5 =>
    exact move_frame_trans (move_frame_move_word_left _) (move_frame_clear_anchor s)
  | kRIT5 =>
    exact move_frame_trans (move_frame_move_word_right _) (move_frame_clear_anchor s)
  | keyUp => exact move_frame_trans (move_frame_move_up _) (move_frame_clear_anchor s)
  | keyDown =>
    exact move_frame_trans (move_frame_move_down _) (move_frame_clear_anchor s)
  | keyLeft =>
    show move_frame (handle_key Key.keyLeft s).2 s
    cases h : s.sel_anchor with
    | none =>
      simp only [handle_key, h]
      exact move_frame_move_left s
    | some a =>
      simp only [handle_key, h]
      cases hs : sel_range s with
      | none => simp only [hs]; exact ⟨rfl, rfl, rfl, rfl, rfl, rfl⟩
      | some r =>
        obtain ⟨st, en⟩ := r
        simp only [hs]
        exact ⟨rfl, rfl, rfl, rfl, rfl, rfl⟩
  | keyRight =>
    show move_frame (handle_key Key.keyRight s).2 s
    cases h : s.sel_anchor with
    | none =>
      simp only [handle_key, h]
      exact move_frame_move_right s
    | some a =>
      simp only [handle_key, h]
      cases hs : sel_range s with
      | none => simp only [hs]; exact ⟨rfl, rfl, rfl, rfl, rfl, rfl⟩
      | some r =>
        obtain ⟨st, en⟩ := r
        simp only [hs]
        exact ⟨rfl, rfl, rfl, rfl, rfl, rfl⟩
  | keyHome => exact ⟨rfl, rfl, rfl, rfl, rfl, rfl⟩
  | keyEnd => exact ⟨rfl, rfl, rfl, rfl, rfl, rfl⟩
  | keyPgUp => exact move_frame_trans (move_frame_page_up _) (move_frame_clear_anchor s)
  | keyPgDown =>
    exact move_frame_trans (move_frame_page_down _) (move_frame_clear_anchor s)
  | keyBackspace => simp [is_move_key] at hk
  | keyDelete => simp [is_move_key] at hk
  | keyEnter => simp [is_move_key] at hk
  | keyTab => simp [is_move_key] at hk
  | char c => simp [is_move_key] at hk

/-- C10: every pure cursor-movement key (plain, Shift- or Ctrl-modified
arrows, Home/End, PageUp/PageDown) leaves the buffer lines, `get_text`, the
undo stack, the redo stack, the highlight-dirty flag and the scroll offsets
unchanged; only the cursor, the selection anchor and the render-dirty flag
may change. -/
theorem movement_frame (s : CodeEditor) (k : Key) (hk : is_move_key k = true) :
    (step k s).lines = s.lines ∧ get_text (step k s) = get_text s ∧
    (step k s).undo_stack = s.undo_stack ∧ (step k s).redo_stack = s.redo_stack ∧
    (step k s).highlight_dirty = s.highlight_dirty ∧
    (step k s).scroll_row = s.scroll_row ∧ (step k s).scroll_col = s.scroll_col := by
  obtain ⟨h1, h2, h3, h4, h5, h6⟩ := move_frame_step s k hk
  refine ⟨h1, ?_, h2, h3, h4, h5, h6⟩
  show join_nl (step k s).lines = join_nl s.lines
  rw [h1]

/-- Witness for C10: pressing the Down arrow on the fresh editor. -/
theorem movement_frame_witness :
    (step Key.keyDown init).lines = init.lines ∧
    get_text (step Key.keyDown init) = get_text init ∧
    (step Key.keyDown init).undo_stack = init.undo_stack ∧
    (step Key.keyDown init).redo_stack = init.redo_stack ∧
    (step Key.keyDown init).highlight_dirty = init.highlight_dirty ∧
    (step Key.keyDown init).scroll_row = init.scroll_row ∧
    (step Key.keyDown init).scroll_col = init.scroll_col :=
  movement_frame init Key.keyDown (by decide)

/-! ### C7: the undo and redo stacks stay within the configured bound -/

theorem save_undo_redo_stack (s : CodeEditor) : (save_undo s).redo_stack = [] := rfl

theorem save_undo_len (s : CodeEditor) (h : s.undo_stack.length ≤ max_undo) :
    (save_undo s).undo_stack.length ≤ max_undo := by
  show (if max_undo < (s.undo_stack ++ [(s.lines, s.cursor_row, s.cursor_col)]).length
      then (s.undo_stack ++ [(s.lines, s.cursor_row, s.cursor_col)]).drop 1
      else s.undo_stack ++ [(s.lines, s.cursor_row, s.cursor_col)]).length ≤ max_undo
  split <;> rename_i hl <;>
    simp only [List.length_drop, List.length_append, List.length_singleton] at * <;> omega

theorem delete_selection_stacks (s : CodeEditor) :
    ((delete_selection s).2.undo_stack = s.undo_stack ∧
     (delete_selection s).2.redo_stack = s.redo_stack) ∨
    ((delete_selection s).2.undo_stack = (save_undo s).undo_stack ∧
     (delete_selection s).2.redo_stack = []) := by
  cases h : sel_range s with
  | none => rw [delete_selection_none _ h]; exact Or.inl ⟨rfl, rfl⟩
  | some r =>
    obtain ⟨⟨sr, sc⟩, er, ec⟩ := r
    right
    unfold delete_selection
    rw [h]
    exact ⟨rfl, rfl⟩

theorem backspace_redo_stack (s : CodeEditor) :
    (backspace s).redo_stack = s.redo_stack := by
  unfold backspace
  dsimp only
  split
  · rfl
  · split <;> rfl

theorem delete_redo_stack (s : CodeEditor) :
    (delete s).redo_stack = s.redo_stack := by
  unfold delete
  dsimp only
  split
  · rfl
  · split <;> rfl

theorem enter_redo_stack (s : CodeEditor) : (enter s).redo_stack = s.redo_stack := rfl

theorem insert_char_redo_stack (ch : Char) (s : CodeEditor) :
    (insert_char ch s).redo_stack = s.redo_stack := rfl

theorem insert_text_redo_stack (t : List Char) (s : CodeEditor) :
    (insert_text t s).redo_stack = s.redo_stack := rfl

theorem undo_sum (s : CodeEditor) :
    (undo s).undo_stack.length + (undo s).redo_stack.length ≤
      s.undo_stack.length + s.redo_stack.length := by
  unfold undo
  cases hl : s.undo_stack.getLast? with
  | none => exact Nat.le_refl _
  | some e =>
    have hne : s.undo_stack ≠ [] := by
      intro hn
      rw [hn] at hl
      simp at hl
    have h1 : 1 ≤ s.undo_stack.length := by
      cases hu : s.undo_stack with
      | nil => exact absurd hu hne
      | cons a t => simp
    simp only [List.length_dropLast, List.length_append, List.length_singleton]
    omega

theorem redo_sum (s : CodeEditor) :
    (redo s).undo_stack.length + (redo s).redo_stack.length ≤
      s.undo_stack.length + s.redo_stack.length := by
  unfold redo
  cases hl : s.redo_stack.getLast? with
  | none => exact Nat.le_refl _
  | some e =>
    have hne : s.redo_stack ≠ [] := by
      intro hn
      rw [hn] at hl
      simp at hl
    have h1 : 1 ≤ s.redo_stack.length := by
      cases hu : s.redo_stack with
      | nil => exact absurd hu hne
      | cons a t => simp
    simp only [List.length_dropLast, List.length_append, List.length_singleton]
    omega

theorem sum_after_save_then_sel (s : CodeEditor)
    (h : s.undo_stack.length ≤ max_undo) :
    (delete_selection (save_undo s)).2.undo_stack.length +
      (delete_selection (save_undo s)).2.redo_stack.length ≤ max_undo := by
  rcases delete_selection_stacks (save_undo s) with ⟨h1, h2⟩ | ⟨h1, h2⟩
  · rw [h1, h2, save_undo_redo_stack]
    simpa using save_undo_len s h
  · rw [h1, h2]
    simpa using save_undo_len (save_undo s) (save_undo_len s h)

theorem stacks_sum_step (s : CodeEditor) (o : Op)
    (h : s.undo_stack.length + s.redo_stack.length ≤ max_undo) :
    (step_op s o).undo_stack.length + (step_op s o).redo_stack.length ≤ max_undo := by
  have hu : s.undo_stack.length ≤ max_undo := by omega
  cases o with
  | set t =>
    show (set_text t s).undo_stack.length + (set_text t s).redo_stack.length ≤ max_undo
    simp [set_text, max_undo]
  | key k =>
    show (step k s).undo_stack.length + (step k s).redo_stack.length ≤ max_undo
    cases k
    case keyBackspace =>
      show ((if (delete_selection s).1 then (true, (delete_selection s).2)
        else (true, backspace (save_undo s))).2.undo_stack.length +
        (if (delete_selection s).1 then (true, (delete_selection s).2)
        else (true, backspace (save_undo s))).2.redo_stack.length ≤ max_undo)
      split
      · rcases delete_selection_stacks s with ⟨h1, h2⟩ | ⟨h1, h2⟩
        · rw [h1, h2]; exact h
        · rw [h1, h2]; simpa using save_undo_len s hu
      · rw [backspace_undo_stack, backspace_redo_stack, save_undo_redo_stack]
        simpa using save_undo_len s hu
    case keyDelete =>
      show ((if (delete_selection s).1 then (true, (delete_selection s).2)
        else (true, delete (save_undo s))).2.undo_stack.length +
        (if (delete_selection s).1 then (true, (delete_selection s).2)
        else (true, delete (save_undo s))).2.redo_stack.length ≤ max_undo)
      split
      · rcases delete_selection_stacks s with ⟨h1, h2⟩ | ⟨h1, h2⟩
        · rw [h1, h2]; exact h
        · rw [h1, h2]; simpa using save_undo_len s hu
      · rw [delete_undo_stack, delete_redo_stack, save_undo_redo_stack]
        simpa using save_undo_len s hu
    case keyEnter =>
      show ((enter (delete_selection (save_undo s)).2).undo_stack.length +
        (enter (delete_selection (save_undo s)).2).redo_stack.length ≤ max_undo)
      rw [enter_undo_stack, enter_redo_stack]
      exact sum_after_save_then_sel s hu
    case keyTab =>
      show ((insert_text (chars "    ") (delete_selection (save_undo s)).2).undo_stack.length +
        (insert_text (chars "    ") (delete_selection (save_undo s)).2).redo_stack.length ≤ max_undo)
      rw [insert_text_undo_stack, insert_text_redo_stack]
      exact sum_after_save_then_sel s hu
    case char c =>
      show ((if c = ctrl_u ∨ c = ctrl_z then (true, undo s)
        else if c = ctrl_r ∨ c = ctrl_y then (true, redo s)
        else if c = '\t' then
          (true, insert_text (chars "    ") (delete_selection (save_undo s)).2)
        else (true, insert_char c (delete_selection (save_undo s)).2)).2.undo_stack.length +
        (if c = ctrl_u ∨ c = ctrl_z then (true, undo s)
        else if c = ctrl_r ∨ c = ctrl_y then (true, redo s)
        else if c = '\t' then
          (true, insert_text (chars "    ") (delete_selection (save_undo s)).2)
        else (true, insert_char c (delete_selection (save_undo s)).2)).2.redo_stack.length ≤ max_undo)
      split
      · exact le_trans (undo_sum s) h
      · split
        · exact le_trans (redo_sum s) h
        · split
          · rw [insert_text_undo_stack, insert_text_redo_stack]
            exact sum_after_save_then_sel s hu
          · rw [insert_char_undo_stack, insert_char_redo_stack]
            exact sum_after_save_then_sel s hu
    case kUP2 =>
      obtain ⟨-, h2, h3, -, -, -⟩ := move_frame_step s Key.kUP2 rfl
      rw [h2, h3]; exact h
    case kUP6 =>
      obtain ⟨-, h2, h3, -, -, -⟩ := move_frame_step s Key.kUP6 rfl
      rw [h2, h3]; exact h
    case kDN2 =>
      obtain ⟨-, h2, h3, -, -, -⟩ := move_frame_step s Key.kDN2 rfl
      rw [h2, h3]; exact h
    case kDN6 =>
      obtain ⟨-, h2, h3, -, -, -⟩ := move_frame_step s Key.kDN6 rfl
      rw [h2, h3]; exact h
    case kLFT2 =>
      obtain ⟨-, h2, h3, -, -, -⟩ := move_frame_step s Key.kLFT2 rfl
      rw [h2, h3]; exact h
    case kRIT2 =>
      obtain ⟨-, h2, h3, -, -, -⟩ := move_frame_step s Key.kRIT2 rfl
      rw [h2, h3]; exact h
    case kLFT6 =>
      obtain ⟨-, h2, h3, -, -, -⟩ := move_frame_step s Key.kLFT6 rfl
      rw [h2, h3]; exact h
    case kRIT6 =>
      obtain ⟨-, h2, h3, -, -, -⟩ := move_frame_step s Key.kRIT6 rfl
      rw [h2, h3]; exact h
    case kHOM2 =>
      obtain ⟨-, h2, h3, -, -, -⟩ := move_frame_step s Key.kHOM2 rfl
      rw [h2, h3]; exact h
    case kEND2 =>
      obtain ⟨-, h2, h3, -, -, -⟩ := move_frame_step s Key.kEND2 rfl
      rw [h2, h3]; exact h
    case kLFT5 =>
      obtain ⟨-, h2, h3, -, -, -⟩ := move_frame_step s Key.kLFT5 rfl
      rw [h2, h3]; exact h
    case kRIT5 =>
      obtain ⟨-, h2, h3, -, -, -⟩ := move_frame_step s Key.kRIT5 rfl
      rw [h2, h3]; exact h
    case keyUp =>
      obtain ⟨-, h2, h3, -, -, -⟩ := move_frame_step s Key.keyUp rfl
      rw [h2, h3]; exact h
    case keyDown =>
      obtain ⟨-, h2, h3, -, -, -⟩ := move_frame_step s Key.keyDown rfl
      rw [h2, h3]; exact h
    case keyLeft =>
      obtain ⟨-, h2, h3, -, -, -⟩ := move_frame_step s Key.keyLeft rfl
      rw [h2, h3]; exact h
    case keyRight =>
      obtain ⟨-, h2, h3, -, -, -⟩ := move_frame_step s Key.keyRight rfl
      rw [h2, h3]; exact h
    case keyHome =>
      obtain ⟨-, h2, h3, -, -, -⟩ := move_frame_step s Key.keyHome rfl
      rw [h2, h3]; exact h
    case keyEnd =>
      obtain ⟨-, h2, h3, -, -, -⟩ := move_frame_step s Key.keyEnd rfl
      rw [h2, h3]; exact h
    case keyPgUp =>
      obtain ⟨-, h2, h3, -, -, -⟩ := move_frame_step s Key.keyPgUp rfl
      rw [h2, h3]; exact h
    case keyPgDown =>
      obtain ⟨-, h2, h3, -, -, -⟩ := move_frame_step s Key.keyPgDown rfl
      rw [h2, h3]; exact h

theorem stacks_sum_run (ops : List Op) (s : CodeEditor)
    (h : s.undo_stack.length + s.redo_stack.length ≤ max_undo) :
    (run ops s).undo_stack.length + (run ops s).redo_stack.length ≤ max_undo := by
  induction ops generalizing s with
  | nil => exact h
  | cons o t ih => exact ih (step_op s o) (stacks_sum_step s o h)

/-- C7: over every operation sequence from the initial editor, the undo and
redo stacks never exceed the configured maximum depth 200; and when a
snapshot push would exceed the bound, the oldest entry is discarded. -/
theorem undo_redo_bounded :
    (∀ ops : List Op, (run ops init).undo_stack.length ≤ 200 ∧
       (run ops init).redo_stack.length ≤ 200) ∧
    (∀ s : CodeEditor, s.undo_stack.length = max_undo →
       (save_undo s).undo_stack =
         (s.undo_stack ++ [(s.lines, s.cursor_row, s.cursor_col)]).drop 1) := by
  constructor
  · intro ops
    have h := stacks_sum_run ops init (by simp [init, max_undo])
    unfold max_undo at h
    omega
  · intro s hs
    show (if max_undo < (s.undo_stack ++ [(s.lines, s.cursor_row, s.cursor_col)]).length
        then (s.undo_stack ++ [(s.lines, s.cursor_row, s.cursor_col)]).drop 1
        else s.undo_stack ++ [(s.lines, s.cursor_row, s.cursor_col)]) =
      (s.undo_stack ++ [(s.lines, s.cursor_row, s.cursor_col)]).drop 1
    rw [if_pos]
    simp only [List.length_append, List.length_singleton, hs]
    omega

/-- Witness for C7: the empty operation sequence, and a snapshot push onto a
full 200-entry undo stack discarding the oldest entry. -/
theorem undo_redo_bounded_witness :
    (run [] init).undo_stack.length ≤ 200 ∧
    (save_undo { init with undo_stack := List.replicate 200 ([[]], 0, 0) }).undo_stack =
      (List.replicate 200 (([[]] : List (List Char)), 0, 0) ++ [([[]], 0, 0)]).drop 1 :=
  ⟨(undo_redo_bounded.1 []).1, undo_redo_bounded.2 _ (List.length_replicate _ _)⟩

/-! ### C3: delete_selection removes exactly the normalized range -/

theorem take_succ_set (L : List (List Char)) (n : Nat) (x : List Char)
    (h : n < L.length) :
    (L.set n x).take (n + 1) = L.take n ++ [x] := by
  rw [List.set_eq_take_cons_drop x h, List.take_append_eq_append_take]
  have hlen : (L.take n).length = n := by
    rw [List.length_take]
    omega
  rw [hlen]
  have h1 : n + 1 - n = 1 := by omega
  rw [h1]
  simp [List.take_take]

theorem drop_set_of_le (L : List (List Char)) (n : Nat) (x : List Char) (m : Nat)
    (hn : n < L.length) (h : n + 1 ≤ m) :
    (L.set n x).drop m = L.drop m := by
  rw [List.set_eq_take_cons_drop x hn]
  have hlen : (L.take n).length = n := by
    rw [List.length_take]
    omega
  rw [List.drop_append_eq_append_drop,
    List.drop_eq_nil_of_le (by rw [hlen]; omega), List.nil_append, hlen]
  have h2 : m - n = (m - (n + 1)) + 1 := by omega
  rw [h2, List.drop_succ_cons, List.drop_drop]
  congr 1
  omega

theorem sel_range_sorted (s : CodeEditor) (sr sc er ec : Nat)
    (h : sel_range s = some ((sr, sc), (er, ec))) :
    sr < er ∨ (sr = er ∧ sc < ec) := by
  unfold sel_range at h
  cases ha : s.sel_anchor with
  | none => rw [ha] at h; simp at h
  | some a =>
    obtain ⟨a1, a2⟩ := a
    rw [ha] at h
    dsimp only at h
    split at h
    · simp at h
    · rename_i hne
      split at h
      · rename_i hlt
        simp only [Option.some.injEq, Prod.mk.injEq] at h
        obtain ⟨⟨e1, e2⟩, e3, e4⟩ := h
        simp only [pos_lt, Bool.or_eq_true, decide_eq_true_eq, Bool.and_eq_true] at hlt
        omega
      · rename_i hlt
        simp only [Option.some.injEq, Prod.mk.injEq] at h
        obtain ⟨⟨e1, e2⟩, e3, e4⟩ := h
        simp only [pos_lt, Bool.or_eq_true, decide_eq_true_eq, Bool.and_eq_true,
          not_or, not_and, not_lt] at hlt
        simp only [Prod.mk.injEq, not_and] at hne
        omega

/-- C3: `delete_selection` with an active selection removes exactly the
normalized half-open range — the remaining lines are the prefix rows, then
the start-row prefix joined with the end-row suffix, then the rows after the
end row (for a same-row range this is the one-line splice) — places the
cursor at the range start, clears the anchor and returns true; with no
active selection it returns false and changes nothing; and on line
`"abcdef"` with selection `[(0,2),(0,5))` the result is `"abf"` with cursor
`(0,2)`. -/
theorem delete_selection_spec :
    (∀ s : CodeEditor, sel_range s = none → delete_selection s = (false, s)) ∧
    (∀ (s : CodeEditor) (sr sc er ec : Nat),
      sel_range s = some ((sr, sc), (er, ec)) → sr < s.lines.length →
      (delete_selection s).1 = true ∧
      (delete_selection s).2.lines =
        s.lines.take sr ++
          [(line_at s.lines sr).take sc ++ (line_at s.lines er).drop ec] ++
          s.lines.drop (er + 1) ∧
      (delete_selection s).2.cursor_row = sr ∧
      (delete_selection s).2.cursor_col = sc ∧
      (delete_selection s).2.sel_anchor = none) ∧
    ((delete_selection ex_sel).1 = true ∧
      (delete_selection ex_sel).2.lines = [chars "abf"] ∧
      (delete_selection ex_sel).2.cursor_row = 0 ∧
      (delete_selection ex_sel).2.cursor_col = 2) := by
  refine ⟨delete_selection_none, ?_, by decide⟩
  intro s sr sc er ec h hsr
  have hsort := sel_range_sorted s sr sc er ec h
  unfold delete_selection
  rw [h]
  dsimp only
  refine ⟨rfl, ?_, rfl, rfl, rfl⟩
  show (if sr = er then
      s.lines.set sr ((line_at s.lines sr).take sc ++ (line_at s.lines sr).drop ec)
    else
      ((s.lines.set sr ((line_at s.lines sr).take sc ++ (line_at s.lines er).drop ec)).take (sr + 1) ++
        (s.lines.set sr ((line_at s.lines sr).take sc ++ (line_at s.lines er).drop ec)).drop (er + 1))) =
    s.lines.take sr ++
      [(line_at s.lines sr).take sc ++ (line_at s.lines er).drop ec] ++
      s.lines.drop (er + 1)
  by_cases heq : sr = er
  · subst heq
    rw [if_pos rfl, List.set_eq_take_cons_drop _ hsr]
    simp
  · rw [if_neg heq]
    have hlt : sr < er := by
      rcases hsort with h1 | ⟨h1, -⟩
      · exact h1
      · exact absurd h1 heq
    rw [take_succ_set _ _ _ hsr, drop_set_of_le _ _ _ _ hsr (by omega)]

/-- Witness for C3: the `"abcdef"` example, through the general range
formula. -/
theorem delete_selection_spec_witness :
    (delete_selection ex_sel).1 = true ∧
    (delete_selection ex_sel).2.lines =
      ex_sel.lines.take 0 ++
        [(line_at ex_sel.lines 0).take 2 ++ (line_at ex_sel.lines 0).drop 5] ++
        ex_sel.lines.drop 1 :=
  let h := delete_selection_spec.2.1 ex_sel 0 2 0 5 (by decide) (by decide)
  ⟨h.1, h.2.1⟩

/-! ### C4: viewport invariant, relative to the code width -/

/-- C4 (amended): for every height ≥ 1 and every width of at least
`gutter_width + 1` (so that the code column width `width - gutter_width` is
positive), starting from non-negative scroll offsets, a render leaves the
scroll offsets with `scroll_row ≤ cursor_row < scroll_row + height`,
`scroll_col ≤ cursor_col < scroll_col + width` (the cursor is in fact inside
the narrower code column), and both offsets non-negative. -/
theorem viewport_invariant (s : CodeEditor) (width height : Int)
    (hh : 1 ≤ height) (hw : (gutter_width_of s.lines : Int) + 1 ≤ width)
    (hr : 0 ≤ s.scroll_row) (hc : 0 ≤ s.scroll_col) :
    (render_scroll s width height).scroll_row ≤ (s.cursor_row : Int) ∧
    (s.cursor_row : Int) < (render_scroll s width height).scroll_row + height ∧
    (render_scroll s width height).scroll_col ≤ (s.cursor_col : Int) ∧
    (s.cursor_col : Int) < (render_scroll s width height).scroll_col + width ∧
    0 ≤ (render_scroll s width height).scroll_row ∧
    0 ≤ (render_scroll s width height).scroll_col := by
  have hg4 : 4 ≤ gutter_width_of s.lines := Nat.le_max_left _ _
  have hg : (4 : Int) ≤ (gutter_width_of s.lines : Int) := by exact_mod_cast hg4
  unfold render_scroll
  dsimp only
  split_ifs <;> omega

/-- Witness for C4 at a concrete input: an 80×24 viewport on the fresh
editor. -/
theorem viewport_invariant_witness :
    (render_scroll init 80 24).scroll_row ≤ (init.cursor_row : Int) ∧
    (init.cursor_row : Int) < (render_scroll init 80 24).scroll_row + 24 ∧
    (render_scroll init 80 24).scroll_col ≤ (init.cursor_col : Int) ∧
    (init.cursor_col : Int) < (render_scroll init 80 24).scroll_col + 80 ∧
    0 ≤ (render_scroll init 80 24).scroll_row ∧
    0 ≤ (render_scroll init 80 24).scroll_col :=
  viewport_invariant init 80 24 (by decide) (by decide) (by decide) (by decide)

/-! ### C6: how editing keys interact with an active selection -/

/-- C6 (amended): with an active selection, Enter, Tab and plain printable
characters first delete the selection and then apply their own edit at the
collapsed cursor; Backspace and Delete delete only the selection and consume
the key without applying their own edit. -/
theorem selection_replacing_edits (s : CodeEditor) (h : (sel_range s).isSome = true) :
    step Key.keyBackspace s = (delete_selection s).2 ∧
    step Key.keyDelete s = (delete_selection s).2 ∧
    step Key.keyEnter s = enter (delete_selection (save_undo s)).2 ∧
    step Key.keyTab s = insert_text (chars "    ") (delete_selection (save_undo s)).2 ∧
    (∀ c : Char, is_edit_key (Key.char c) = true → ¬ c = '\t' →
      step (Key.char c) s = insert_char c (delete_selection (save_undo s)).2) := by
  obtain ⟨r, hr⟩ := Option.isSome_iff_exists.mp h
  have h1 := (delete_selection_some_stack s r hr).1
  refine ⟨?_, ?_, rfl, rfl, ?_⟩
  · show (if (delete_selection s).1 then (true, (delete_selection s).2)
      else (true, backspace (save_undo s))).2 = (delete_selection s).2
    rw [if_pos h1]
  · show (if (delete_selection s).1 then (true, (delete_selection s).2)
      else (true, delete (save_undo s))).2 = (delete_selection s).2
    rw [if_pos h1]
  · intro c hk h3
    have hcu : ¬ (c = ctrl_u ∨ c = ctrl_z) := by
      simp only [is_edit_key, Bool.not_eq_true', Bool.or_eq_false_iff,
        beq_eq_false_iff_ne, ne_eq] at hk
      tauto
    have hcr : ¬ (c = ctrl_r ∨ c = ctrl_y) := by
      simp only [is_edit_key, Bool.not_eq_true', Bool.or_eq_false_iff,
        beq_eq_false_iff_ne, ne_eq] at hk
      tauto
    show (if c = ctrl_u ∨ c = ctrl_z then (true, undo s)
      else if c = ctrl_r ∨ c = ctrl_y then (true, redo s)
      else if c = '\t' then
        (true, insert_text (chars "    ") (delete_selection (save_undo s)).2)
      else (true, insert_char c (delete_selection (save_undo s)).2)).2 =
      insert_char c (delete_selection (save_undo s)).2
    rw [if_neg hcu, if_neg hcr, if_neg h3]

/-- Witness for C6 on the `"abcdef"` selection state: Backspace collapses to
the selection deletion; a printable character edits at the collapsed
cursor. -/
theorem selection_replacing_edits_witness :
    step Key.keyBackspace ex_sel = (delete_selection ex_sel).2 ∧
    step (Key.char 'x') ex_sel = insert_char 'x' (delete_selection (save_undo ex_sel)).2 :=
  let h := selection_replacing_edits ex_sel (by decide)
  ⟨h.1, h.2.2.2.2 'x' (by decide) (by decide)⟩

/-! ### C9: stale background-task completions are not guarded -/

/-- C9 (amended): the `run_async` completion wrapper invalidates the screen
that launched the task unconditionally — it performs no check of the screen
stack — so a task completing after its screen was popped still mutates that
screen's state (sets its dirty flag) instead of being a no-op. -/
theorem stale_completion_unguarded (stack : List TuiScreen) (s : TuiScreen)
    (_hpop : s ∉ pop_screen stack) (hd : s.dirty = false) :
    (run_async_complete s).dirty = true ∧ run_async_complete s ≠ s := by
  refine ⟨rfl, fun he => ?_⟩
  have hmut : (run_async_complete s).dirty = s.dirty := by rw [he]
  rw [hd] at hmut
  exact Bool.noConfusion (show true = false from hmut)

/-- Witness for C9: screen 1 popped from a two-screen stack, its task
completing afterwards. -/
theorem stale_completion_unguarded_witness :
    (run_async_complete ⟨1, false⟩).dirty = true ∧
    run_async_complete ⟨1, false⟩ ≠ (⟨1, false⟩ : TuiScreen) :=
  stale_completion_unguarded [⟨0, true⟩, ⟨1, false⟩] ⟨1, false⟩ (by decide) rfl

/-! ### C8: the highlight cache partitions the token stream per line -/

theorem split_nl_cons (c : Char) (cs p : List Char) (ps : List (List Char))
    (h : split_nl cs = p :: ps) :
    split_nl (c :: cs) = if c = '\n' then [] :: p :: ps else (c :: p) :: ps := by
  simp only [split_nl, h]

theorem split_nl_ne_nil (l : List Char) : split_nl l ≠ [] := by
  induction l with
  | nil => simp [split_nl]
  | cons c cs ih =>
    cases h : split_nl cs with
    | nil => exact absurd h ih
    | cons p ps =>
      rw [split_nl_cons c cs p ps h]
      split <;> simp

theorem split_nl_length (l : List Char) : (split_nl l).length = l.count '\n' + 1 := by
  induction l with
  | nil => simp [split_nl]
  | cons c cs ih =>
    cases h : split_nl cs with
    | nil => exact absurd h (split_nl_ne_nil cs)
    | cons p ps =>
      rw [h] at ih
      rw [split_nl_cons c cs p ps h, List.count_cons]
      by_cases hc : c = '\n'
      · subst hc
        simp only [if_pos rfl, beq_self_eq_true, if_true, List.length_cons] at *
        omega
      · have hb : (c == '\n') = false := by simp [hc]
        rw [if_neg hc]
        simp only [hb, Bool.false_eq_true, if_false, List.length_cons] at *
        omega

theorem add_rest_length (color : String) (ps : List (List Char))
    (hl : List HlLine) (cur : HlLine) :
    (add_rest color ps (hl, cur)).1.length = hl.length + ps.length := by
  induction ps generalizing hl cur with
  | nil => simp [add_rest]
  | cons p t ih =>
    show (add_rest color t (hl ++ [cur], add_first [] color p)).1.length =
      hl.length + (t.length + 1)
    rw [ih]
    simp
    omega

theorem split_token_length (st : List HlLine × HlLine) (tok : HlToken) :
    (split_token st tok).1.length = st.1.length + tok.2.count '\n' := by
  unfold split_token
  cases h : split_nl tok.2 with
  | nil => exact absurd h (split_nl_ne_nil _)
  | cons p ps =>
    have hlen := split_nl_length tok.2
    rw [h] at hlen
    simp only [List.length_cons] at hlen
    rw [add_rest_length]
    omega

theorem foldl_split_token_length (tokens : List HlToken) (hl : List HlLine)
    (cur : HlLine) :
    (tokens.foldl split_token (hl, cur)).1.length =
      hl.length + (tokens.map (fun t => t.2.count '\n')).sum := by
  induction tokens generalizing hl cur with
  | nil => simp
  | cons t ts ih =>
    rw [List.foldl_cons]
    have he : split_token (hl, cur) t =
        ((split_token (hl, cur) t).1, (split_token (hl, cur) t).2) := rfl
    rw [he, ih, split_token_length]
    simp
    omega

theorem count_flatten_values (tokens : List HlToken) :
    ((tokens.map (fun t => t.2)).flatten).count '\n' =
      (tokens.map (fun t => t.2.count '\n')).sum := by
  induction tokens with
  | nil => simp
  | cons t ts ih => simp [List.count_append, ih]

theorem count_nl_join_nl (lines : List (List Char)) (h : ∀ l ∈ lines, ('\n') ∉ l)
    (hne : lines ≠ []) :
    (join_nl lines).count '\n' = lines.length - 1 := by
  induction lines with
  | nil => exact absurd rfl hne
  | cons l ls ih =>
    cases ls with
    | nil =>
      show l.count '\n' = 1 - 1
      simp [List.count_eq_zero.mpr (h l (by simp))]
    | cons l2 t =>
      show (l ++ '\n' :: join_nl (l2 :: t)).count '\n' = (l2 :: t).length + 1 - 1
      rw [List.count_append, List.count_cons,
        List.count_eq_zero.mpr (h l (by simp))]
      have ih2 := ih (fun x hx => h x (by simp [hx])) (by simp)
      simp only [beq_self_eq_true, if_true, List.length_cons] at *
      omega

/-- C8: for any buffer and any lexer token stream whose concatenated text
equals the buffer text, recomputing the highlight cache yields exactly one
token list per buffer line; recomputing a non-dirty cache is a no-op; and
recomputation is a pure function of the buffer and token stream, so forcing
dirty and recomputing again on unchanged text yields an identical
partition. -/
theorem rehighlight_spec :
    (∀ (lines : List (List Char)) (tokens : List HlToken) (cache : List HlLine),
      lines ≠ [] → (∀ l ∈ lines, ('\n') ∉ l) →
      (tokens.map (fun t => t.2)).flatten = join_nl lines →
      (rehighlight lines tokens true cache).2.length = lines.length) ∧
    (∀ (lines : List (List Char)) (tokens : List HlToken) (cache : List HlLine),
      rehighlight lines tokens false cache = (false, cache)) ∧
    (∀ (lines : List (List Char)) (tokens : List HlToken) (c1 c2 : List HlLine),
      (rehighlight lines tokens true c1).2 = (rehighlight lines tokens true c2).2) := by
  refine ⟨?_, fun lines tokens cache => rfl, fun lines tokens c1 c2 => rfl⟩
  intro lines tokens cache hne hnl hjoin
  have hfold := foldl_split_token_length tokens [] []
  have hcount := count_flatten_values tokens
  have hjoin2 : ((tokens.map (fun t => t.2)).flatten).count '\n' = lines.length - 1 := by
    rw [hjoin]
    exact count_nl_join_nl lines hnl hne
  have hlen1 : 1 ≤ lines.length := by
    cases hx : lines with
    | nil => exact absurd hx hne
    | cons a t => simp
  show ((tokens.foldl split_token ([], [])).1 ++ [(tokens.foldl split_token ([], [])).2] ++
    List.replicate (lines.length -
      ((tokens.foldl split_token ([], [])).1 ++
        [(tokens.foldl split_token ([], [])).2]).length) []).length = lines.length
  simp only [List.length_append, List.length_replicate, List.length_singleton,
    List.length_nil] at *
  omega

/-- Witness for C8: a two-line buffer `["ab", "x"]` and the single token
`"ab\nx"`. -/
theorem rehighlight_spec_witness :
    (rehighlight [chars "ab", chars "x"] [("k", chars "ab\nx")] true []).2.length = 2 :=
  rehighlight_spec.1 [chars "ab", chars "x"] [("k", chars "ab\nx")] []
    (by decide) (by decide) (by decide)
